import Mathlib

/-!
Verification of the ActorSingleton plugin (AActorSingleton /
UActorSingletonManager) against its design specification.

The development shallowly embeds the C++ implementation found in
Source/ActorSingleton: classes of the UE reflection system are modelled by
natural numbers together with a `superOf` chain, the per-world
UActorSingletonManager subsystem by a `WorldState` record holding the
`Instances` map, and the protocol functions
(`AActorSingleton::GetFinalParent`, `AActorSingleton::TryBecomeNewInstanceOrSelfDestroy`,
`AActorSingleton::GetInstance`, `UActorSingletonManager::FindInstancesAndDestroyDuplicates`,
`UActorSingletonManager::PostInitialize`) as explicit state-passing functions.
Diagnostics (failed `ensure` assertions, warning and error log lines) are
reified as a list of `LogEvent` values returned alongside the new state.
-/

namespace ActorSingleton

/-- A UE class hierarchy, restricted to the classes below the abstract root
`AActorSingleton`.  `superOf` models `UClass::GetSuperClass`, `root` models
`AActorSingleton::StaticClass()`, and `isFinalParent` models the value of the
virtual predicate `IsFinalParent` evaluated on the class default object
(the predicate only depends on the class, never on instance state). -/
structure ClassHierarchy where
  superOf : Nat → Nat
  root : Nat
  isFinalParent : Nat → Bool

/-- The `InheritanceChain` array built by `AActorSingleton::GetFinalParent`:
walk the `GetSuperClass` chain from the concrete class `c` up to, and
excluding, the abstract root, recording the classes in most-derived-first
order.  `fuel` bounds the walk; the real UClass hierarchy is finite, which is
expressed by the `reachesRoot` side condition below. -/
def inheritanceChain (H : ClassHierarchy) : Nat → Nat → List Nat
  | 0, _ => []
  | fuel + 1, c => if c = H.root then [] else c :: inheritanceChain H fuel (H.superOf c)

/-- The super-class walk starting at `c` hits the abstract root within `fuel`
steps.  This holds for every real UClass; it certifies that
`inheritanceChain H fuel c` is the complete ancestor chain of `c`. -/
def reachesRoot (H : ClassHierarchy) : Nat → Nat → Bool
  | 0, c => c == H.root
  | fuel + 1, c => c == H.root || reachesRoot H fuel (H.superOf c)

/-- Model of `AActorSingleton::GetFinalParent`: build the inheritance chain and
traverse it backwards, from the topmost parent down to the concrete class,
returning the first class whose `IsFinalParent` predicate (evaluated on its
class default object) is true; `none` models the `nullptr` returned when no
class in the chain is marked final.  The backward index loop of the source is
rendered as a first-match scan of the reversed chain. -/
def GetFinalParent (H : ClassHierarchy) (fuel : Nat) (c : Nat) : Option Nat :=
  (inheritanceChain H fuel c).reverse.find? H.isFinalParent

/-- First-match characterisation of `List.find?`: it returns `x` exactly when
the list splits as `l₁ ++ x :: l₂` with the predicate false on all of `l₁`
and true at `x`. -/
theorem find?_split {α : Type} (p : α → Bool) :
    ∀ (l : List α) (x : α),
      l.find? p = some x ↔
        ∃ l₁ l₂, l = l₁ ++ x :: l₂ ∧ p x = true ∧ ∀ y ∈ l₁, p y = false := by
  intro l
  induction l with
  | nil =>
    intro x
    simp [List.find?]
  | cons a t ih =>
    intro x
    by_cases hpa : p a = true
    · rw [List.find?_cons_of_pos _ hpa]
      constructor
      · intro h
        have hax : a = x := by simpa using h
        exact ⟨[], t, by simp [hax], hax ▸ hpa, by simp⟩
      · rintro ⟨l₁, l₂, heq, hpx, hall⟩
        cases l₁ with
        | nil =>
          have : a = x := by simpa using congrArg List.head? heq
          simp [this]
        | cons b l₁t =>
          have hab : a = b := by simpa using congrArg List.head? heq
          have hpb : p b = false := hall b (by simp)
          rw [hab, hpb] at hpa
          exact absurd hpa (by simp)
    · have hpa' : p a = false := by
        cases h : p a
        · rfl
        · exact absurd h hpa
      rw [List.find?_cons_of_neg _ (by simp [hpa'])]
      rw [ih x]
      constructor
      · rintro ⟨l₁, l₂, heq, hpx, hall⟩
        refine ⟨a :: l₁, l₂, by simp [heq], hpx, ?_⟩
        intro y hy
        rcases List.mem_cons.mp hy with h | h
        · exact h ▸ hpa'
        · exact hall y h
      · rintro ⟨l₁, l₂, heq, hpx, hall⟩
        cases l₁ with
        | nil =>
          have : a = x := by simpa using congrArg List.head? heq
          rw [this] at hpa'
          rw [hpx] at hpa'
          exact absurd hpa' (by simp)
        | cons b l₁t =>
          have hab : a = b := by simpa using congrArg List.head? heq
          have htail : t = l₁t ++ x :: l₂ := by simpa using congrArg List.tail heq
          exact ⟨l₁t, l₂, htail, hpx, fun y hy => hall y (by simp [hy])⟩

/-- Claim C1.  For every concrete class derived from the root singleton type,
class resolution (`AActorSingleton::GetFinalParent`) returns exactly the
topmost class of the ancestor chain whose `IsFinalParent` predicate is true:
`GetFinalParent` yields `F` iff the chain (listed from the concrete class up
to, excluding, the abstract root) splits as `l₁ ++ F :: l₂` where `F` is
marked final and every strict ancestor of `F` in the chain (the classes in
`l₂`, those closer to the root) is not.  In particular, for ancestry
root→A→B→C with only A marked final, resolving B or C yields A (see the
witness). -/
theorem getFinalParent_topmost (H : ClassHierarchy) (fuel c F : Nat)
    (_hr : reachesRoot H fuel c = true) :
    GetFinalParent H fuel c = some F ↔
      ∃ l₁ l₂, inheritanceChain H fuel c = l₁ ++ F :: l₂ ∧
        H.isFinalParent F = true ∧ ∀ x ∈ l₂, H.isFinalParent x = false := by
  unfold GetFinalParent
  rw [find?_split]
  constructor
  · rintro ⟨r₁, r₂, heq, hpF, hall⟩
    refine ⟨r₂.reverse, r₁.reverse, ?_, hpF, ?_⟩
    · have h2 := congrArg List.reverse heq
      simpa using h2
    · intro x hx
      exact hall x (by simpa using hx)
  · rintro ⟨l₁, l₂, heq, hpF, hall⟩
    refine ⟨l₂.reverse, l₁.reverse, ?_, hpF, ?_⟩
    · rw [heq]
      simp
    · intro y hy
      exact hall y (by simpa using hy)

/-- The inheritance chain of the abstract root itself is empty (the walk
stops immediately), for any amount of fuel. -/
theorem inheritanceChain_root (H : ClassHierarchy) :
    ∀ fuel, inheritanceChain H fuel H.root = [] := by
  intro fuel
  cases fuel with
  | zero => rfl
  | succ n => simp [inheritanceChain]

/-- If the inheritance chain of `c` splits as `l₁ ++ F :: l₂`, then the
inheritance chain of the intermediate class `F` is exactly `F :: l₂` (with
correspondingly less fuel), and it also reaches the root. -/
theorem chain_suffix (H : ClassHierarchy) :
    ∀ (l₁ : List Nat) (fuel c F : Nat) (l₂ : List Nat),
      inheritanceChain H fuel c = l₁ ++ F :: l₂ →
        inheritanceChain H (fuel - l₁.length) F = F :: l₂ ∧
          (reachesRoot H fuel c = true → reachesRoot H (fuel - l₁.length) F = true) := by
  intro l₁
  induction l₁ with
  | nil =>
    intro fuel c F l₂ h
    cases fuel with
    | zero => simp [inheritanceChain] at h
    | succ n =>
      rw [inheritanceChain] at h
      by_cases hc : c = H.root
      · rw [if_pos hc] at h
        exact absurd h (by simp)
      · rw [if_neg hc] at h
        have hcF : c = F := by simpa using congrArg List.head? h
        have ht : inheritanceChain H n (H.superOf c) = l₂ := by
          simpa using congrArg List.tail h
        subst hcF
        constructor
        · simp only [List.length_nil, Nat.sub_zero]
          rw [inheritanceChain, if_neg hc, ht]
        · intro hr
          simpa using hr
  | cons a l₁t ih =>
    intro fuel c F l₂ h
    cases fuel with
    | zero => simp [inheritanceChain] at h
    | succ n =>
      rw [inheritanceChain] at h
      by_cases hc : c = H.root
      · rw [if_pos hc] at h
        exact absurd h (by simp)
      · rw [if_neg hc] at h
        have ht : inheritanceChain H n (H.superOf c) = l₁t ++ F :: l₂ := by
          simpa using congrArg List.tail h
        obtain ⟨h1, h2⟩ := ih n (H.superOf c) F l₂ ht
        have hlen : Nat.succ n - (a :: l₁t).length = n - l₁t.length := by
          simp [Nat.succ_sub_succ]
        constructor
        · rw [hlen]
          exact h1
        · intro hr
          rw [hlen]
          apply h2
          rw [reachesRoot] at hr
          have hcb : (c == H.root) = false := by simpa using hc
          simpa [hcb] using hr

/-- Once the chain reaches the root within `f` steps, adding fuel does not
change the chain. -/
theorem chain_fuel_mono (H : ClassHierarchy) :
    ∀ (f : Nat), ∀ (g c : Nat), reachesRoot H f c = true → f ≤ g →
      inheritanceChain H g c = inheritanceChain H f c := by
  intro f
  induction f with
  | zero =>
    intro g c hr _
    have hc : c = H.root := by simpa [reachesRoot] using hr
    subst hc
    rw [inheritanceChain_root, inheritanceChain_root]
  | succ n ih =>
    intro g c hr hle
    by_cases hc : c = H.root
    · subst hc
      rw [inheritanceChain_root, inheritanceChain_root]
    · have hcb : (c == H.root) = false := by simpa using hc
      have hr' : reachesRoot H n (H.superOf c) = true := by
        rw [reachesRoot] at hr
        simpa [hcb] using hr
      cases g with
      | zero => exact absurd hle (by omega)
      | succ m =>
        have hnm : n ≤ m := by omega
        rw [inheritanceChain, inheritanceChain, if_neg hc, if_neg hc,
          ih m (H.superOf c) hr' hnm]

/-- Resolution is idempotent: the final parent of a class is its own final
parent.  This is the source-level fact behind registry bucket sharing: the
bucket key `GetFinalParent c` resolves to itself. -/
theorem getFinalParent_idem (H : ClassHierarchy) (fuel c F : Nat)
    (hres : GetFinalParent H fuel c = some F)
    (hr : reachesRoot H fuel c = true) :
    GetFinalParent H fuel F = some F := by
  unfold GetFinalParent at hres ⊢
  rw [find?_split] at hres
  obtain ⟨r₁, r₂, heq, hpF, hall⟩ := hres
  have hchain : inheritanceChain H fuel c = r₂.reverse ++ F :: r₁.reverse := by
    have h2 := congrArg List.reverse heq
    simpa using h2
  obtain ⟨h1, h2⟩ := chain_suffix H r₂.reverse fuel c F r₁.reverse hchain
  have hrF := h2 hr
  have hFchain : inheritanceChain H fuel F = F :: r₁.reverse := by
    rw [chain_fuel_mono H (fuel - r₂.reverse.length) fuel F hrF (Nat.sub_le _ _), h1]
  rw [hFchain, find?_split]
  exact ⟨r₁, [], by simp, hpF, hall⟩

/-- Example hierarchy for witnesses: class 0 is the abstract root
`AActorSingleton`, and the ancestry is 0 → 1 (A) → 2 (B) → 3 (C), with only A
marked as final parent. -/
def exH : ClassHierarchy where
  superOf := fun c => match c with
    | 2 => 1
    | 3 => 2
    | _ => 0
  root := 0
  isFinalParent := fun c => c == 1

/-- Witness for C1: in the hierarchy root→A→B→C with only A final, resolving
B (class 2) yields A (class 1): the chain of B is [B, A] and A is the topmost
final class in it. -/
theorem getFinalParent_topmost_witness :
    reachesRoot exH 4 2 = true ∧
      (GetFinalParent exH 4 2 = some 1 ↔
        ∃ l₁ l₂, inheritanceChain exH 4 2 = l₁ ++ 1 :: l₂ ∧
          exH.isFinalParent 1 = true ∧ ∀ x ∈ l₂, exH.isFinalParent x = false) :=
  ⟨by decide, getFinalParent_topmost exH 4 2 1 (by decide)⟩

/-- An AActorSingleton instance, as the protocol observes it: its object
identity, its concrete class, the `IsValid` liveness flag, the
`IsActorBeingDestroyed` flag, the `RF_Transient` object flag, and whether the
object is the class default object. -/
structure Actor where
  id : Nat
  cls : Nat
  valid : Bool
  beingDestroyed : Bool
  transient : Bool
  isCDO : Bool
deriving DecidableEq

/-- The `Instances` map of `UActorSingletonManager`:
`TMap<TSubclassOf<AActorSingleton>, AActorSingleton*>`, an association list
from final-parent class to the stored instance pointer (`none` models
`nullptr`). -/
abbrev Registry := List (Nat × Option Nat)

/-- Model of `TMap::Contains`. -/
def mapContains (m : Registry) (k : Nat) : Bool :=
  m.any (fun p => p.1 == k)

/-- Model of the `TMap` indexed read (also the read through the `CurrentInstance`
reference); on a missing key the real map would assert, the protocol only
reads keys it has checked or just added, and we return `none` there. -/
def mapGet (m : Registry) (k : Nat) : Option Nat :=
  match m.find? (fun p => p.1 == k) with
  | some p => p.2
  | none => none

/-- Writing through the `CurrentInstance` reference: replace the value stored
under an existing key. -/
def mapSet (m : Registry) (k : Nat) (v : Option Nat) : Registry :=
  m.map (fun p => if p.1 == k then (k, v) else p)

/-- Model of `TMap::Add`: overwrite the value if the key is present, append the new
pair otherwise. -/
def mapAdd (m : Registry) (k : Nat) (v : Option Nat) : Registry :=
  if mapContains m k = true then mapSet m k v else m ++ [(k, v)]

/-- Look an actor up by object identity (dereferencing a stored pointer). -/
def findActor (acts : List Actor) (i : Nat) : Option Actor :=
  acts.find? (fun a => a.id == i)

/-- Model of `IsValid` applied to a stored `AActorSingleton*`: false for `nullptr`,
false for a pointer whose object is gone or no longer valid, and the liveness
flag of the object otherwise. -/
def isValidRef (acts : List Actor) : Option Nat → Bool
  | none => false
  | some i =>
    match findActor acts i with
    | none => false
    | some a => a.valid

/-- Model of `AActor::Destroy` (and likewise the editor deletion path): the instance
is removed from the live world; we keep its record, marked dead, so stale
pointers to it can still be dereferenced as invalid. -/
def destroyActor (acts : List Actor) (i : Nat) : List Actor :=
  acts.map (fun a => if a.id == i then { a with valid := false, beingDestroyed := true } else a)

/-- Diagnostics emitted by the protocol: a failed `ensure`-style assertion
(loud diagnostic), the warning log line emitted when an instance becomes the
singleton instance, and the error log line emitted when a duplicate is about
to be destroyed. -/
inductive LogEvent where
  | ensureFailed
  | warnNewInstance
  | errorDuplicate
deriving DecidableEq

/-- The per-world state the protocol acts on: whether the
`UActorSingletonManager` world subsystem is available
(`UActorSingletonManager::Get` returns it only once initialization is
complete), its `Instances` map, and the live objects of the world. -/
structure WorldState where
  registryReady : Bool
  registry : Registry
  actors : List Actor
deriving DecidableEq

/-- Model of `AActorSingleton::TryBecomeNewInstanceOrSelfDestroy`, the accept-or-retire
protocol, invoked with the object identity of the instance (`this`).  Mirrors
the source: early no-ops for invalid / being-destroyed / transient / CDO
instances and for a missing manager; resolution via `GetFinalParent` with a
loud `ensure` and no-op when it fails; lazy `Add` of the registry entry;
idempotent return when the entry already refers to `this`; promotion (with a
warning log) when the stored instance is no longer valid; otherwise an error
log and retirement of `this`.  The editor deletion path and the plain
`Destroy` call both retire the duplicate and are modelled by `destroyActor`. -/
def TryBecomeNewInstanceOrSelfDestroy (H : ClassHierarchy) (fuel : Nat)
    (s : WorldState) (i : Nat) : WorldState × List LogEvent :=
  match findActor s.actors i with
  | none => (s, [LogEvent.ensureFailed])
  | some a =>
    if a.valid = false then (s, [LogEvent.ensureFailed])
    else if (a.beingDestroyed || a.transient) = true then (s, [])
    else if a.isCDO = true then (s, [])
    else if s.registryReady = false then (s, [])
    else
      match GetFinalParent H fuel a.cls with
      | none => (s, [LogEvent.ensureFailed])
      | some parentCls =>
        let reg1 := if mapContains s.registry parentCls = true then s.registry
          else mapAdd s.registry parentCls none
        let current := mapGet reg1 parentCls
        if current = some i then ({ s with registry := reg1 }, [])
        else if isValidRef s.actors current = false then
          ({ s with registry := mapSet reg1 parentCls (some i) }, [LogEvent.warnNewInstance])
        else
          ({ s with registry := reg1, actors := destroyActor s.actors i },
            [LogEvent.errorDuplicate])

/-- Model of `AActorSingleton::GetInstance`: the lookup query.  `worldValid` models
`IsValid(WorldContext)`.  Mirrors the source: a failed `ensure` and `nullptr`
for an invalid world context; a failed `ensure` and `nullptr` when the
manager subsystem is not available; resolution of the queried class through
`GetFinalParent` (failed `ensure` and `nullptr` when it fails); then the raw
stored pointer if the entry exists and `nullptr` otherwise. -/
def GetInstance (H : ClassHierarchy) (fuel : Nat) (s : WorldState)
    (worldValid : Bool) (cls : Nat) : Option Nat × List LogEvent :=
  if worldValid = false then (none, [LogEvent.ensureFailed])
  else if s.registryReady = false then (none, [LogEvent.ensureFailed])
  else
    match GetFinalParent H fuel cls with
    | none => (none, [LogEvent.ensureFailed])
    | some parentCls =>
      if mapContains s.registry parentCls = true then (mapGet s.registry parentCls, [])
      else (none, [])

/-- The loop body of `FindInstancesAndDestroyDuplicates`: run the
accept-or-retire protocol on each enumerated object identity in order,
threading the world state and collecting the diagnostics. -/
def runOnAll (H : ClassHierarchy) (fuel : Nat) : WorldState → List Nat → WorldState × List LogEvent
  | s, [] => (s, [])
  | s, i :: rest =>
    let r := TryBecomeNewInstanceOrSelfDestroy H fuel s i
    let r2 := runOnAll H fuel r.1 rest
    (r2.1, r.2 ++ r2.2)

/-- Model of `UActorSingletonManager::FindInstancesAndDestroyDuplicates`: enumerate
every live instance of the root singleton type in the world
(`UGameplayStatics::GetAllActorsOfClass`, which skips objects that are no
longer valid, in the enumeration order of the world object list) and run the
protocol on each. -/
def FindInstancesAndDestroyDuplicates (H : ClassHierarchy) (fuel : Nat)
    (s : WorldState) : WorldState × List LogEvent :=
  runOnAll H fuel s ((s.actors.filter (fun a => a.valid)).map (fun a => a.id))

/-- Model of `UActorSingletonManager::PostInitialize` (renamed here): the one-shot
deferred sweep that runs immediately after the world subsystem finishes
initialising.  From this point on `UActorSingletonManager::Get` succeeds, so
the sweep re-runs the protocol on every live instance. -/
def ManagerPostInit (H : ClassHierarchy) (fuel : Nat) (s : WorldState) :
    WorldState × List LogEvent :=
  FindInstancesAndDestroyDuplicates H fuel { s with registryReady := true }

/-- A `find?` scan skips a prefix on which the predicate fails. -/
theorem find?_append_none {α : Type} (p : α → Bool) :
    ∀ (l₁ : List α) (l₂ : List α), l₁.find? p = none →
      (l₁ ++ l₂).find? p = l₂.find? p := by
  intro l₁
  induction l₁ with
  | nil => intro l₂ _; rfl
  | cons a t ih =>
    intro l₂ h
    rw [List.find?_eq_none] at h
    have hpa : p a = false := by
      have := h a (by simp)
      cases hh : p a
      · rfl
      · exact absurd hh this
    have ht : t.find? p = none := by
      rw [List.find?_eq_none]
      intro x hx
      exact h x (by simp [hx])
    rw [List.cons_append, List.find?_cons_of_neg _ (by simp [hpa])]
    exact ih l₂ ht

/-- A key missing from the map is missed by the underlying `find?`. -/
theorem mapContains_false_find?_none (m : Registry) (k : Nat)
    (h : mapContains m k = false) : m.find? (fun p => p.1 == k) = none := by
  rw [List.find?_eq_none]
  intro x hx
  intro hk
  have : m.any (fun p => p.1 == k) = true := List.any_eq_true.mpr ⟨x, hx, hk⟩
  rw [mapContains] at h
  rw [this] at h
  exact absurd h (by simp)

/-- Reading a key right after `TMap::Add` inserted it yields the added
value. -/
theorem mapGet_mapAdd_self (m : Registry) (k : Nat) (v : Option Nat)
    (h : mapContains m k = false) : mapGet (mapAdd m k v) k = v := by
  rw [mapAdd, if_neg (by simp [h]), mapGet,
    find?_append_none _ m [(k, v)] (mapContains_false_find?_none m k h)]
  simp [List.find?]

/-- Updating a value in place does not change which keys are present. -/
theorem mapContains_mapSet (m : Registry) (k q : Nat) (v : Option Nat) :
    mapContains (mapSet m k v) q = mapContains m q := by
  induction m with
  | nil => rfl
  | cons p t ih =>
    by_cases hp : (p.1 == k) = true
    · have hpk : p.1 = k := by simpa using hp
      simp only [mapSet, List.map_cons, if_pos hp, mapContains, List.any_cons]
      rw [show ((List.map (fun p => if (p.1 == k) = true then (k, v) else p) t).any
        fun p => p.1 == q) = mapContains t q from ih, hpk, mapContains]
    · simp only [mapSet, List.map_cons, if_neg hp, mapContains, List.any_cons]
      rw [show ((List.map (fun p => if (p.1 == k) = true then (k, v) else p) t).any
        fun p => p.1 == q) = mapContains t q from ih, mapContains]

/-- After `TMap::Add` of key `k`, the map contains `k`. -/
theorem mapContains_mapAdd_self (m : Registry) (k : Nat) (v : Option Nat) :
    mapContains (mapAdd m k v) k = true := by
  by_cases h : mapContains m k = true
  · rw [mapAdd, if_pos h, mapContains_mapSet]
    exact h
  · have h' : mapContains m k = false := by
      cases hh : mapContains m k
      · rfl
      · exact absurd hh h
    rw [mapAdd, if_neg (by simp [h']), mapContains]
    exact List.any_eq_true.mpr ⟨(k, v), by simp, by simp⟩

/-- Adding via `TMap::Add` never removes a key that was present. -/
theorem mapContains_mapAdd_mono (m : Registry) (k q : Nat) (v : Option Nat)
    (h : mapContains m q = true) : mapContains (mapAdd m k v) q = true := by
  by_cases hc : mapContains m k = true
  · rw [mapAdd, if_pos hc, mapContains_mapSet]
    exact h
  · rw [mapAdd, if_neg hc, mapContains]
    rw [mapContains] at h
    obtain ⟨x, hx, hk⟩ := List.any_eq_true.mp h
    exact List.any_eq_true.mpr ⟨x, by simp [hx], hk⟩

/-- Reading a present key after writing it through the `CurrentInstance`
reference yields the written value. -/
theorem mapGet_mapSet_self (m : Registry) (k : Nat) (v : Option Nat)
    (h : mapContains m k = true) : mapGet (mapSet m k v) k = v := by
  induction m with
  | nil => simp [mapContains] at h
  | cons p t ih =>
    by_cases hp : (p.1 == k) = true
    · rw [mapSet, List.map_cons, if_pos hp, mapGet,
        List.find?_cons_of_pos _ (by simp)]
    · have hp' : (p.1 == k) = false := by
        cases hh : p.1 == k
        · rfl
        · exact absurd hh hp
      rw [mapContains, List.any_cons, hp', Bool.false_or] at h
      rw [mapSet, List.map_cons, if_neg hp, mapGet,
        List.find?_cons_of_neg _ (by simp [hp'])]
      exact ih h

/-- A key holding a real (non-null) pointer is present in the map. -/
theorem mapContains_of_mapGet (m : Registry) (k : Nat) (x : Nat)
    (h : mapGet m k = some x) : mapContains m k = true := by
  induction m with
  | nil => simp [mapGet, List.find?] at h
  | cons p t ih =>
    by_cases hp : (p.1 == k) = true
    · rw [mapContains, List.any_cons, hp]
      rfl
    · have hp' : (p.1 == k) = false := by
        cases hh : p.1 == k
        · rfl
        · exact absurd hh hp
      rw [mapGet, List.find?_cons_of_neg _ (by simp [hp'])] at h
      rw [mapContains, List.any_cons, hp', Bool.false_or]
      rw [mapGet] at ih
      exact ih h

/-- Destroying one actor does not disturb the lookup of a different one. -/
theorem findActor_destroy_ne (i j : Nat) (hij : i ≠ j) :
    ∀ (acts : List Actor), findActor (destroyActor acts j) i = findActor acts i := by
  intro acts
  induction acts with
  | nil => rfl
  | cons a t ih =>
    by_cases haj : (a.id == j) = true
    · have haj' : a.id = j := by simpa using haj
      have hai : (a.id == i) = false := by
        simp [haj']
        omega
      rw [destroyActor, List.map_cons, if_pos haj, findActor,
        List.find?_cons_of_neg _ (by simp [hai]), findActor,
        List.find?_cons_of_neg _ (by simp [hai])]
      exact ih
    · rw [destroyActor, List.map_cons, if_neg haj]
      by_cases hai : (a.id == i) = true
      · rw [findActor, List.find?_cons_of_pos _ (by simpa using hai), findActor,
          List.find?_cons_of_pos _ (by simpa using hai)]
      · rw [findActor, List.find?_cons_of_neg _ (by simpa using hai), findActor,
          List.find?_cons_of_neg _ (by simpa using hai)]
        exact ih

/-- After destroying actor `j`, looking `j` up yields its record marked dead. -/
theorem findActor_destroy_self (j : Nat) :
    ∀ (acts : List Actor) (a : Actor), findActor acts j = some a →
      findActor (destroyActor acts j) j =
        some { a with valid := false, beingDestroyed := true } := by
  intro acts
  induction acts with
  | nil => intro a h; simp [findActor, List.find?] at h
  | cons b t ih =>
    intro a h
    by_cases hbj : (b.id == j) = true
    · rw [findActor, List.find?_cons_of_pos _ (by simpa using hbj)] at h
      have hba : b = a := by simpa using h
      subst hba
      rw [destroyActor, List.map_cons, if_pos hbj, findActor,
        List.find?_cons_of_pos _ (by simpa using hbj)]
    · rw [findActor, List.find?_cons_of_neg _ (by simpa using hbj)] at h
      rw [destroyActor, List.map_cons, if_neg hbj, findActor,
        List.find?_cons_of_neg _ (by simpa using hbj)]
      rw [findActor] at ih
      rw [destroyActor] at ih
      exact ih a h

/-- Reduction of the protocol when the manager subsystem is not yet
available: a silent no-op (the deferred sweep will retry). -/
theorem tryBecome_notReady (H : ClassHierarchy) (fuel : Nat) (s : WorldState)
    (i : Nat) (a : Actor)
    (ha : findActor s.actors i = some a) (hv : a.valid = true)
    (hbd : a.beingDestroyed = false) (htr : a.transient = false)
    (hcdo : a.isCDO = false) (hready : s.registryReady = false) :
    TryBecomeNewInstanceOrSelfDestroy H fuel s i = (s, []) := by
  simp only [TryBecomeNewInstanceOrSelfDestroy, ha]
  simp [hv, hbd, htr, hcdo, hready]

/-- Reduction of the protocol on the promotion path when no entry for the
resolved class exists yet: the entry is lazily added (as null), the stored
null pointer is not valid, so the instance is promoted and the warning log
line is emitted. -/
theorem tryBecome_promote_fresh (H : ClassHierarchy) (fuel : Nat) (s : WorldState)
    (i : Nat) (a : Actor) (F : Nat)
    (ha : findActor s.actors i = some a) (hv : a.valid = true)
    (hbd : a.beingDestroyed = false) (htr : a.transient = false)
    (hcdo : a.isCDO = false) (hready : s.registryReady = true)
    (hres : GetFinalParent H fuel a.cls = some F)
    (hfresh : mapContains s.registry F = false) :
    TryBecomeNewInstanceOrSelfDestroy H fuel s i =
      ({ s with registry := mapSet (mapAdd s.registry F none) F (some i) },
        [LogEvent.warnNewInstance]) := by
  have hget : mapGet (mapAdd s.registry F none) F = none :=
    mapGet_mapAdd_self s.registry F none hfresh
  simp only [TryBecomeNewInstanceOrSelfDestroy, ha, hres]
  simp [hv, hbd, htr, hcdo, hready, hfresh, hget, isValidRef]

/-- Reduction of the protocol on the retirement path: the entry exists, it
refers to a different instance, and that instance is still valid, so the
error log line is emitted and `this` is destroyed; the registry is not
touched. -/
theorem tryBecome_duplicate (H : ClassHierarchy) (fuel : Nat) (s : WorldState)
    (i : Nat) (a : Actor) (F : Nat)
    (ha : findActor s.actors i = some a) (hv : a.valid = true)
    (hbd : a.beingDestroyed = false) (htr : a.transient = false)
    (hcdo : a.isCDO = false) (hready : s.registryReady = true)
    (hres : GetFinalParent H fuel a.cls = some F)
    (hcont : mapContains s.registry F = true)
    (hne : mapGet s.registry F ≠ some i)
    (hval : isValidRef s.actors (mapGet s.registry F) = true) :
    TryBecomeNewInstanceOrSelfDestroy H fuel s i =
      ({ s with actors := destroyActor s.actors i }, [LogEvent.errorDuplicate]) := by
  simp only [TryBecomeNewInstanceOrSelfDestroy, ha, hres]
  simp [hv, hbd, htr, hcdo, hready, hcont, hne, hval]

/-- Claim C2.  For an instance whose class has no class in its ancestor chain
marked as final parent, the accept-or-retire protocol emits a loud diagnostic
(the failed `ensure` on the null result of `GetFinalParent`) and no-ops: the
returned world state is exactly the input state, so no registry entry is
created for any class, the registry is unchanged, and the instance is neither
registered nor retired. -/
theorem tryBecome_noFinalParent_noop (H : ClassHierarchy) (fuel : Nat) (s : WorldState)
    (i : Nat) (a : Actor)
    (ha : findActor s.actors i = some a) (hv : a.valid = true)
    (hbd : a.beingDestroyed = false) (htr : a.transient = false)
    (hcdo : a.isCDO = false) (hready : s.registryReady = true)
    (hnone : ∀ x ∈ inheritanceChain H fuel a.cls, H.isFinalParent x = false) :
    TryBecomeNewInstanceOrSelfDestroy H fuel s i = (s, [LogEvent.ensureFailed]) := by
  have hres : GetFinalParent H fuel a.cls = none := by
    unfold GetFinalParent
    rw [List.find?_eq_none]
    intro x hx
    have hx' := hnone x (by simpa using hx)
    simp [hx']
  simp only [TryBecomeNewInstanceOrSelfDestroy, ha, hres]
  simp [hv, hbd, htr, hcdo, hready]

/-- Hierarchy 0 → 1 → 2 → 3 in which no class is marked final parent. -/
def exHnone : ClassHierarchy where
  superOf := fun c => match c with
    | 2 => 1
    | 3 => 2
    | _ => 0
  root := 0
  isFinalParent := fun _ => false

/-- A live, non-transient, non-CDO instance of class 2 with identity 5. -/
def exA : Actor := ⟨5, 2, true, false, false, false⟩

/-- A ready world containing only `exA`, with an empty registry. -/
def exSnone : WorldState := ⟨true, [], [exA]⟩

/-- Witness for C2: in a hierarchy with no final-parent class, running the
protocol on the live instance `exA` emits the loud diagnostic and leaves the
world state untouched. -/
theorem tryBecome_noFinalParent_noop_witness :
    (∀ x ∈ inheritanceChain exHnone 4 exA.cls, exHnone.isFinalParent x = false) ∧
      TryBecomeNewInstanceOrSelfDestroy exHnone 4 exSnone 5 =
        (exSnone, [LogEvent.ensureFailed]) :=
  ⟨by decide,
    tryBecome_noFinalParent_noop exHnone 4 exSnone 5 exA (by decide) (by decide)
      (by decide) (by decide) (by decide) (by decide) (by decide)⟩

/-- Claim C5.  The protocol is idempotent on the canonical instance: when the
registry entry for the resolved class already refers to `this`, the
invocation returns the state unchanged and emits no diagnostic at all (in
particular no duplicate error and no retirement). -/
theorem tryBecome_idempotent (H : ClassHierarchy) (fuel : Nat) (s : WorldState)
    (i : Nat) (a : Actor) (F : Nat)
    (ha : findActor s.actors i = some a) (hv : a.valid = true)
    (hbd : a.beingDestroyed = false) (htr : a.transient = false)
    (hcdo : a.isCDO = false) (hready : s.registryReady = true)
    (hres : GetFinalParent H fuel a.cls = some F)
    (hcanon : mapGet s.registry F = some i) :
    TryBecomeNewInstanceOrSelfDestroy H fuel s i = (s, []) := by
  have hcont : mapContains s.registry F = true :=
    mapContains_of_mapGet s.registry F i hcanon
  simp only [TryBecomeNewInstanceOrSelfDestroy, ha, hres]
  simp [hv, hbd, htr, hcdo, hready, hcont, hcanon]
  rw [← hready]

/-- A ready world in which instance 5 (class 2, resolved class 1) is already
canonical for class 1. -/
def exSCanon : WorldState := ⟨true, [(1, some 5)], [exA]⟩

/-- Witness for C5: re-running the protocol on the already-canonical instance
5 changes nothing and logs nothing. -/
theorem tryBecome_idempotent_witness :
    mapGet exSCanon.registry 1 = some 5 ∧
      TryBecomeNewInstanceOrSelfDestroy exH 4 exSCanon 5 = (exSCanon, []) :=
  ⟨by decide,
    tryBecome_idempotent exH 4 exSCanon 5 exA 1 (by decide) (by decide) (by decide)
      (by decide) (by decide) (by decide) (by decide) (by decide)⟩

/-- Claim C4.  If the canonical instance recorded for the resolved class has
been destroyed by code outside the protocol (the stored reference is no
longer valid), then a new instance of the same resolved class running the
protocol is promoted to canonical: the registry entry is updated to it, the
warning-level log line is emitted, and neither the duplicate error diagnostic
nor a retirement happens (the world actor list is returned unchanged). -/
theorem tryBecome_promote_stale (H : ClassHierarchy) (fuel : Nat) (s : WorldState)
    (i : Nat) (a : Actor) (F : Nat)
    (ha : findActor s.actors i = some a) (hv : a.valid = true)
    (hbd : a.beingDestroyed = false) (htr : a.transient = false)
    (hcdo : a.isCDO = false) (hready : s.registryReady = true)
    (hres : GetFinalParent H fuel a.cls = some F)
    (hcont : mapContains s.registry F = true)
    (hne : mapGet s.registry F ≠ some i)
    (hstale : isValidRef s.actors (mapGet s.registry F) = false) :
    TryBecomeNewInstanceOrSelfDestroy H fuel s i =
      ({ s with registry := mapSet s.registry F (some i) },
        [LogEvent.warnNewInstance]) := by
  simp only [TryBecomeNewInstanceOrSelfDestroy, ha, hres]
  simp [hv, hbd, htr, hcdo, hready, hcont, hne, hstale]

/-- The stale world for the C4 witness: the registry records instance 5 as
canonical for class 1, but instance 5 has been destroyed externally; a fresh
instance 7 of class 2 is live. -/
def exSStale : WorldState :=
  ⟨true, [(1, some 5)], [⟨5, 2, false, false, false, false⟩, ⟨7, 2, true, false, false, false⟩]⟩

/-- Witness for C4: instance 7 is promoted over the stale entry for the
externally destroyed instance 5, with only the warning log line, no
retirement. -/
theorem tryBecome_promote_stale_witness :
    isValidRef exSStale.actors (mapGet exSStale.registry 1) = false ∧
      TryBecomeNewInstanceOrSelfDestroy exH 4 exSStale 7 =
        ({ exSStale with registry := mapSet exSStale.registry 1 (some 7) },
          [LogEvent.warnNewInstance]) :=
  ⟨by decide,
    tryBecome_promote_stale exH 4 exSStale 7 ⟨7, 2, true, false, false, false⟩ 1
      (by decide) (by decide) (by decide) (by decide) (by decide) (by decide)
      (by decide) (by decide) (by decide) (by decide)⟩

/-- Claim C3.  In a ready world with no entry yet for the resolved class `F`,
running the protocol first on instance `X` and then on instance `Y` of the
same resolved class leaves `X` as the canonical registry entry for `F`,
retires `Y` (its record in the world is no longer valid), and makes the
lookup query for the resolved class return `X`. -/
theorem accept_then_retire (H : ClassHierarchy) (fuel : Nat) (s : WorldState)
    (X Y : Actor) (F : Nat)
    (hX : findActor s.actors X.id = some X) (hY : findActor s.actors Y.id = some Y)
    (hvX : X.valid = true) (hbdX : X.beingDestroyed = false)
    (htrX : X.transient = false) (hcdoX : X.isCDO = false)
    (hvY : Y.valid = true) (hbdY : Y.beingDestroyed = false)
    (htrY : Y.transient = false) (hcdoY : Y.isCDO = false)
    (hready : s.registryReady = true) (hne : X.id ≠ Y.id)
    (hresX : GetFinalParent H fuel X.cls = some F)
    (hresY : GetFinalParent H fuel Y.cls = some F)
    (hreach : reachesRoot H fuel X.cls = true)
    (hfresh : mapContains s.registry F = false) :
    mapGet ((TryBecomeNewInstanceOrSelfDestroy H fuel
        (TryBecomeNewInstanceOrSelfDestroy H fuel s X.id).1 Y.id).1).registry F = some X.id ∧
      isValidRef ((TryBecomeNewInstanceOrSelfDestroy H fuel
        (TryBecomeNewInstanceOrSelfDestroy H fuel s X.id).1 Y.id).1).actors (some Y.id) = false ∧
      (GetInstance H fuel ((TryBecomeNewInstanceOrSelfDestroy H fuel
        (TryBecomeNewInstanceOrSelfDestroy H fuel s X.id).1 Y.id).1) true F).1 = some X.id := by
  have hcont1 : mapContains (mapSet (mapAdd s.registry F none) F (some X.id)) F = true := by
    rw [mapContains_mapSet]
    exact mapContains_mapAdd_self s.registry F none
  have hget1 : mapGet (mapSet (mapAdd s.registry F none) F (some X.id)) F = some X.id :=
    mapGet_mapSet_self _ F _ (mapContains_mapAdd_self s.registry F none)
  have h1 : TryBecomeNewInstanceOrSelfDestroy H fuel s X.id =
      ({ s with registry := mapSet (mapAdd s.registry F none) F (some X.id) },
        [LogEvent.warnNewInstance]) :=
    tryBecome_promote_fresh H fuel s X.id X F hX hvX hbdX htrX hcdoX hready hresX hfresh
  have hne1 : mapGet (mapSet (mapAdd s.registry F none) F (some X.id)) F ≠ some Y.id := by
    rw [hget1]
    simpa using hne
  have hval1 : isValidRef s.actors
      (mapGet (mapSet (mapAdd s.registry F none) F (some X.id)) F) = true := by
    rw [hget1]
    simp [isValidRef, hX, hvX]
  have h2 : TryBecomeNewInstanceOrSelfDestroy H fuel
      { s with registry := mapSet (mapAdd s.registry F none) F (some X.id) } Y.id =
      ({ s with registry := mapSet (mapAdd s.registry F none) F (some X.id),
                actors := destroyActor s.actors Y.id },
        [LogEvent.errorDuplicate]) :=
    tryBecome_duplicate H fuel
      { s with registry := mapSet (mapAdd s.registry F none) F (some X.id) }
      Y.id Y F hY hvY hbdY htrY hcdoY hready hresY hcont1 hne1 hval1
  have key : (TryBecomeNewInstanceOrSelfDestroy H fuel
      (TryBecomeNewInstanceOrSelfDestroy H fuel s X.id).1 Y.id).1 =
      { s with registry := mapSet (mapAdd s.registry F none) F (some X.id),
               actors := destroyActor s.actors Y.id } := by
    rw [h1]
    dsimp only
    rw [h2]
  have hresF : GetFinalParent H fuel F = some F :=
    getFinalParent_idem H fuel X.cls F hresX hreach
  refine ⟨?_, ?_, ?_⟩
  · rw [key]
    exact hget1
  · rw [key]
    simp [isValidRef, findActor_destroy_self Y.id s.actors Y hY]
  · rw [key]
    simp [GetInstance, hready, hresF, hcont1, hget1]

/-- The world for the C3 and C6 witnesses: ready, empty registry, and two
live instances 10 and 11 of class 3 (class C, resolving to A = 1). -/
def exSXY : WorldState :=
  ⟨true, [], [⟨10, 3, true, false, false, false⟩, ⟨11, 3, true, false, false, false⟩]⟩

/-- Witness for C3: in `exSXY`, running the protocol on 10 and then 11 leaves
10 canonical for class 1, retires 11, and the lookup query for class 1
returns 10. -/
theorem accept_then_retire_witness :
    mapContains exSXY.registry 1 = false ∧
      (mapGet ((TryBecomeNewInstanceOrSelfDestroy exH 4
          (TryBecomeNewInstanceOrSelfDestroy exH 4 exSXY 10).1 11).1).registry 1 = some 10 ∧
        isValidRef ((TryBecomeNewInstanceOrSelfDestroy exH 4
          (TryBecomeNewInstanceOrSelfDestroy exH 4 exSXY 10).1 11).1).actors (some 11) = false ∧
        (GetInstance exH 4 ((TryBecomeNewInstanceOrSelfDestroy exH 4
          (TryBecomeNewInstanceOrSelfDestroy exH 4 exSXY 10).1 11).1) true 1).1 = some 10) :=
  ⟨by decide,
    accept_then_retire exH 4 exSXY ⟨10, 3, true, false, false, false⟩
      ⟨11, 3, true, false, false, false⟩ 1 (by decide) (by decide) (by decide) (by decide)
      (by decide) (by decide) (by decide) (by decide) (by decide) (by decide) (by decide)
      (by decide) (by decide) (by decide) (by decide) (by decide)⟩

/-- Claim C6.  The lookup query keys the registry on the resolved
final-singleton class, not on the class it was given: querying with any
class that resolves to `F` gives exactly the same result as querying with
`F` itself (for any world state and any world-validity flag). -/
theorem getInstance_resolves (H : ClassHierarchy) (fuel : Nat) (s : WorldState)
    (w : Bool) (cls F : Nat)
    (hreach : reachesRoot H fuel cls = true)
    (hres : GetFinalParent H fuel cls = some F) :
    GetInstance H fuel s w cls = GetInstance H fuel s w F := by
  have hresF : GetFinalParent H fuel F = some F :=
    getFinalParent_idem H fuel cls F hres hreach
  simp only [GetInstance, hres, hresF]

/-- Witness for C6: querying the subclass C (class 3) of the final class
A (class 1) returns the same as querying A itself. -/
theorem getInstance_resolves_witness :
    reachesRoot exH 4 3 = true ∧ GetFinalParent exH 4 3 = some 1 ∧
      GetInstance exH 4 exSCanon true 3 = GetInstance exH 4 exSCanon true 1 :=
  ⟨by decide, by decide, getInstance_resolves exH 4 exSCanon true 3 1 (by decide) (by decide)⟩

/-- Claim C8.  Calling the lookup query with a null or invalid world context
fails loudly: the failed `ensure` assertion-style diagnostic is emitted (the
call is not a silent null return). -/
theorem getInstance_invalid_world (H : ClassHierarchy) (fuel : Nat)
    (s : WorldState) (cls : Nat) :
    GetInstance H fuel s false cls = (none, [LogEvent.ensureFailed]) := by
  simp [GetInstance]

/-- Counterexample to C7 as stated: in the world `exSStale` the registry
records instance 5 for class 1 and instance 5 is no longer valid, yet the
lookup query returns the stale recorded reference instead of none — the
read path performs no validity check on the stored pointer. -/
theorem getInstance_stale_counterexample :
    (GetInstance exH 4 exSStale true 1).1 = some 5 ∧
      isValidRef exSStale.actors (some 5) = false := by decide

/-- Claim C7 (amended).  The lookup query returns null without failing when
the world context is invalid, when the manager subsystem (the registry) does
not exist yet, and when the registry has no entry for the resolved class;
but when an entry exists it returns the recorded reference as stored, with
no validity check (see the counterexample for a stale entry). -/
theorem getInstance_none_cases (H : ClassHierarchy) (fuel : Nat) (s : WorldState)
    (cls F : Nat) :
    (GetInstance H fuel s false cls).1 = none ∧
      (s.registryReady = false →
        GetInstance H fuel s true cls = (none, [LogEvent.ensureFailed])) ∧
      (s.registryReady = true → GetFinalParent H fuel cls = some F →
        mapContains s.registry F = false →
        GetInstance H fuel s true cls = (none, [])) ∧
      (s.registryReady = true → GetFinalParent H fuel cls = some F →
        mapContains s.registry F = true →
        (GetInstance H fuel s true cls).1 = mapGet s.registry F) := by
  refine ⟨by simp [GetInstance], ?_, ?_, ?_⟩
  · intro h
    simp [GetInstance, h]
  · intro h hres hc
    simp [GetInstance, h, hres, hc]
  · intro h hres hc
    simp [GetInstance, h, hres, hc]

/-- Witness for C7 (amended): in the ready world `exSnone` with an empty
registry, querying class 3 (which resolves to class 1) returns null with no
diagnostic. -/
theorem getInstance_none_cases_witness :
    exSnone.registryReady = true ∧ GetFinalParent exH 4 3 = some 1 ∧
      mapContains exSnone.registry 1 = false ∧
      GetInstance exH 4 exSnone true 3 = (none, []) :=
  ⟨by decide, by decide, by decide,
    (getInstance_none_cases exH 4 exSnone 3 1).2.2.1 (by decide) (by decide) (by decide)⟩

/-- Claim C9.  Deferred sweep: with instances `X` and `Y` of the same
resolved class `F` constructed before the registry exists, the
construction-time invocations of the protocol are no-ops; when the manager
finishes initialising, the sweep (`PostInitialize`, modelled by
`ManagerPostInit`) runs the protocol on every live instance in enumeration
order, so the first enumerated instance `X` becomes canonical and `Y` is
retired.  The sweep is a function of the state and the enumeration order, so
the outcome is deterministic for a fixed order. -/
theorem sweep_first_wins (H : ClassHierarchy) (fuel : Nat) (s : WorldState)
    (X Y : Actor) (F : Nat)
    (hacts : s.actors = [X, Y])
    (hready : s.registryReady = false)
    (hvX : X.valid = true) (hbdX : X.beingDestroyed = false)
    (htrX : X.transient = false) (hcdoX : X.isCDO = false)
    (hvY : Y.valid = true) (hbdY : Y.beingDestroyed = false)
    (htrY : Y.transient = false) (hcdoY : Y.isCDO = false)
    (hne : X.id ≠ Y.id)
    (hresX : GetFinalParent H fuel X.cls = some F)
    (hresY : GetFinalParent H fuel Y.cls = some F)
    (hfresh : mapContains s.registry F = false) :
    TryBecomeNewInstanceOrSelfDestroy H fuel s X.id = (s, []) ∧
      TryBecomeNewInstanceOrSelfDestroy H fuel s Y.id = (s, []) ∧
      mapGet ((ManagerPostInit H fuel s).1).registry F = some X.id ∧
      isValidRef ((ManagerPostInit H fuel s).1).actors (some Y.id) = false ∧
      isValidRef ((ManagerPostInit H fuel s).1).actors (some X.id) = true := by
  have hfX : findActor s.actors X.id = some X := by
    rw [hacts, findActor, List.find?_cons_of_pos _ (by simp)]
  have hfY : findActor s.actors Y.id = some Y := by
    rw [hacts, findActor, List.find?_cons_of_neg _ (by simp [hne]),
      List.find?_cons_of_pos _ (by simp)]
  have hcont1 : mapContains (mapSet (mapAdd s.registry F none) F (some X.id)) F = true := by
    rw [mapContains_mapSet]
    exact mapContains_mapAdd_self s.registry F none
  have hget1 : mapGet (mapSet (mapAdd s.registry F none) F (some X.id)) F = some X.id :=
    mapGet_mapSet_self _ F _ (mapContains_mapAdd_self s.registry F none)
  have hne1 : mapGet (mapSet (mapAdd s.registry F none) F (some X.id)) F ≠ some Y.id := by
    rw [hget1]
    simpa using hne
  have hval1 : isValidRef s.actors
      (mapGet (mapSet (mapAdd s.registry F none) F (some X.id)) F) = true := by
    rw [hget1]
    simp [isValidRef, hfX, hvX]
  have h1 : TryBecomeNewInstanceOrSelfDestroy H fuel { s with registryReady := true } X.id =
      ({ s with registryReady := true,
                registry := mapSet (mapAdd s.registry F none) F (some X.id) },
        [LogEvent.warnNewInstance]) :=
    tryBecome_promote_fresh H fuel { s with registryReady := true } X.id X F hfX hvX hbdX
      htrX hcdoX rfl hresX hfresh
  have h2 : TryBecomeNewInstanceOrSelfDestroy H fuel
      { s with registryReady := true,
               registry := mapSet (mapAdd s.registry F none) F (some X.id) } Y.id =
      ({ s with registryReady := true,
                registry := mapSet (mapAdd s.registry F none) F (some X.id),
                actors := destroyActor s.actors Y.id },
        [LogEvent.errorDuplicate]) :=
    tryBecome_duplicate H fuel
      { s with registryReady := true,
               registry := mapSet (mapAdd s.registry F none) F (some X.id) }
      Y.id Y F hfY hvY hbdY htrY hcdoY rfl hresY hcont1 hne1 hval1
  have henum : (({ s with registryReady := true } : WorldState).actors.filter
      (fun a => a.valid)).map (fun a => a.id) = [X.id, Y.id] := by
    show (s.actors.filter (fun a => a.valid)).map (fun a => a.id) = [X.id, Y.id]
    rw [hacts]
    simp [hvX, hvY]
  have key : (ManagerPostInit H fuel s).1 =
      { s with registryReady := true,
               registry := mapSet (mapAdd s.registry F none) F (some X.id),
               actors := destroyActor s.actors Y.id } := by
    rw [ManagerPostInit, FindInstancesAndDestroyDuplicates, henum]
    simp only [runOnAll]
    rw [h1]
    dsimp only
    rw [h2]
  refine ⟨tryBecome_notReady H fuel s X.id X hfX hvX hbdX htrX hcdoX hready,
    tryBecome_notReady H fuel s Y.id Y hfY hvY hbdY htrY hcdoY hready, ?_, ?_, ?_⟩
  · rw [key]
    exact hget1
  · rw [key]
    simp [isValidRef, findActor_destroy_self Y.id s.actors Y hfY]
  · rw [key]
    simp [isValidRef, findActor_destroy_ne X.id Y.id hne s.actors, hfX, hvX]

/-- The world for the C9 witness: the manager is not ready yet, the registry
is empty, and instances 10 and 11 of class 3 are already present, in that
enumeration order. -/
def exSPre : WorldState :=
  ⟨false, [], [⟨10, 3, true, false, false, false⟩, ⟨11, 3, true, false, false, false⟩]⟩

/-- Witness for C9: in `exSPre` both construction-time invocations are
no-ops, and after the sweep runs the first enumerated instance 10 is
canonical for class 1, instance 11 is retired, and instance 10 is alive. -/
theorem sweep_first_wins_witness :
    exSPre.registryReady = false ∧
      (TryBecomeNewInstanceOrSelfDestroy exH 4 exSPre 10 = (exSPre, []) ∧
        TryBecomeNewInstanceOrSelfDestroy exH 4 exSPre 11 = (exSPre, []) ∧
        mapGet ((ManagerPostInit exH 4 exSPre).1).registry 1 = some 10 ∧
        isValidRef ((ManagerPostInit exH 4 exSPre).1).actors (some 11) = false ∧
        isValidRef ((ManagerPostInit exH 4 exSPre).1).actors (some 10) = true) :=
  ⟨by decide,
    sweep_first_wins exH 4 exSPre ⟨10, 3, true, false, false, false⟩
      ⟨11, 3, true, false, false, false⟩ 1 (by decide) (by decide) (by decide) (by decide)
      (by decide) (by decide) (by decide) (by decide) (by decide) (by decide) (by decide)
      (by decide) (by decide) (by decide)⟩

/-- One invocation of the protocol never removes a registry key: any key
present before is present after, whatever branch is taken. -/
theorem tryBecome_preserves_key (H : ClassHierarchy) (fuel : Nat) (s : WorldState)
    (i k : Nat) (h : mapContains s.registry k = true) :
    mapContains (TryBecomeNewInstanceOrSelfDestroy H fuel s i).1.registry k = true := by
  simp only [TryBecomeNewInstanceOrSelfDestroy]
  cases hfa : findActor s.actors i with
  | none => exact h
  | some a =>
    dsimp only
    split
    · exact h
    split
    · exact h
    split
    · exact h
    split
    · exact h
    cases hres : GetFinalParent H fuel a.cls with
    | none => exact h
    | some F =>
      dsimp only
      by_cases hc : mapContains s.registry F = true
      · rw [if_pos hc]
        split
        · exact h
        split
        · rw [mapContains_mapSet]
          exact h
        · exact h
      · rw [if_neg hc]
        have hadd : mapContains (mapAdd s.registry F none) k = true :=
          mapContains_mapAdd_mono s.registry F k none h
        split
        · exact hadd
        split
        · rw [mapContains_mapSet]
          exact hadd
        · exact hadd

/-- The retirement path does not touch the registry: whenever an invocation
of the protocol reports the duplicate error, the registry of the resulting
state is exactly the input registry (no entry added, removed or changed). -/
theorem tryBecome_error_keeps_registry (H : ClassHierarchy) (fuel : Nat)
    (s : WorldState) (i : Nat) :
    (TryBecomeNewInstanceOrSelfDestroy H fuel s i).2 = [LogEvent.errorDuplicate] →
      (TryBecomeNewInstanceOrSelfDestroy H fuel s i).1.registry = s.registry := by
  simp only [TryBecomeNewInstanceOrSelfDestroy]
  cases hfa : findActor s.actors i with
  | none =>
    intro h
    simp at h
  | some a =>
    dsimp only
    split
    · intro h
      simp at h
    split
    · intro h
      simp at h
    split
    · intro h
      simp at h
    split
    · intro h
      simp at h
    cases hres : GetFinalParent H fuel a.cls with
    | none =>
      intro h
      simp at h
    | some F =>
      dsimp only
      by_cases hc : mapContains s.registry F = true
      · rw [if_pos hc]
        split
        · intro h
          simp at h
        split
        · intro h
          simp at h
        · intro h
          rfl
      · rw [if_neg hc]
        have hc2 : mapContains s.registry F = false := by
          cases hh : mapContains s.registry F
          · rfl
          · exact absurd hh hc
        have hget : mapGet (mapAdd s.registry F none) F = none :=
          mapGet_mapAdd_self s.registry F none hc2
        rw [hget]
        split
        · intro h
          simp at h
        split
        · intro h
          simp at h
        · rename_i h5 h6
          exact absurd rfl h6

/-- The sweep loop never removes a registry key. -/
theorem runOnAll_preserves_key (H : ClassHierarchy) (fuel k : Nat) :
    ∀ (l : List Nat) (s : WorldState), mapContains s.registry k = true →
      mapContains (runOnAll H fuel s l).1.registry k = true := by
  intro l
  induction l with
  | nil => intro s h; exact h
  | cons i rest ih =>
    intro s h
    simp only [runOnAll]
    exact ih _ (tryBecome_preserves_key H fuel s i k h)

/-- Claim C10.  No operation of the protocol removes a key from the registry
map: a key present before an invocation of the accept-or-retire protocol, of
the sweep loop, or of the post-initialise sweep is still present after; and
the retirement path mutates no registry entry at all — when an invocation
reports the duplicate error, the resulting registry is exactly the input
registry. -/
theorem registry_keys_persist (H : ClassHierarchy) (fuel : Nat) (s : WorldState)
    (i k : Nat) :
    (mapContains s.registry k = true →
      mapContains (TryBecomeNewInstanceOrSelfDestroy H fuel s i).1.registry k = true) ∧
      ((TryBecomeNewInstanceOrSelfDestroy H fuel s i).2 = [LogEvent.errorDuplicate] →
        (TryBecomeNewInstanceOrSelfDestroy H fuel s i).1.registry = s.registry) ∧
      (mapContains s.registry k = true →
        mapContains (FindInstancesAndDestroyDuplicates H fuel s).1.registry k = true) ∧
      (mapContains s.registry k = true →
        mapContains (ManagerPostInit H fuel s).1.registry k = true) :=
  ⟨tryBecome_preserves_key H fuel s i k,
    tryBecome_error_keeps_registry H fuel s i,
    runOnAll_preserves_key H fuel k _ s,
    fun h => runOnAll_preserves_key H fuel k _ { s with registryReady := true } h⟩

/-- The world for the C10 witness: instance 5 is canonical for class 1 and a
live duplicate 7 of class 2 is present. -/
def exSdup : WorldState :=
  ⟨true, [(1, some 5)], [exA, ⟨7, 2, true, false, false, false⟩]⟩

/-- Witness for C10: retiring the duplicate 7 keeps the key 1 present and
leaves the registry exactly unchanged, while the duplicate error is
reported. -/
theorem registry_keys_persist_witness :
    mapContains exSdup.registry 1 = true ∧
      mapContains (TryBecomeNewInstanceOrSelfDestroy exH 4 exSdup 7).1.registry 1 = true ∧
      (TryBecomeNewInstanceOrSelfDestroy exH 4 exSdup 7).2 = [LogEvent.errorDuplicate] ∧
      (TryBecomeNewInstanceOrSelfDestroy exH 4 exSdup 7).1.registry = exSdup.registry :=
  ⟨by decide, (registry_keys_persist exH 4 exSdup 7 1).1 (by decide), by decide,
    (registry_keys_persist exH 4 exSdup 7 1).2.1 (by decide)⟩

end ActorSingleton
